import Mathlib

/- Verification of the POMCP Blackjack planner: a shallow embedding of the
data model and operations of `pomcp.py` and `blackjack.py`, followed by
theorems settling the specified properties.  Floating-point quantities are
modelled as rationals (exact arithmetic); the transcendental UCB score uses
real numbers.  Randomness (shoe draws, particle draws) is supplied by
explicit oracle streams. -/

namespace PomcpBlackjack

/-- Python enum `blackjack.Action`: the closed enumeration of moves,
`STAND = 1` then `HIT = 2`, iterated in definition order. -/
inductive Action : Type where
  | STAND : Action
  | HIT : Action
deriving DecidableEq

/-- Members of the `Action` enumeration in enumeration order:
`for a in Action` yields `STAND` then `HIT`. -/
def Action.all : List Action := [Action.STAND, Action.HIT]

/-- Blackjack face value of a card, as read by `State.score_soft_busted`:
an ace (card 1) counts 11, cards above 10 (J/Q/K) count 10, the rest count
their pip value. -/
def cardValue (card : ℕ) : ℕ :=
  if card = 1 then 11 else if 10 < card then 10 else card

/-- Loop `while score > 21 and aces > 0: score -= 10` of
`State.score_soft_busted` in the case `aces > 0`: the body never decrements
`aces`, so the condition `aces > 0` stays true and the loop keeps
subtracting 10 until the score is at most 21. -/
def dropTens (s : ℕ) : ℕ :=
  if 21 < s then dropTens (s - 10) else s
termination_by s
decreasing_by omega

/-- Method `State.score_soft_busted`, as a function of the acting agent's
hand (the method reads only `self.hands[agent]`); hands are modelled as the
list of cards.  Returns `(score, soft, busted)` exactly as the source
computes them: `soft` is true whenever the hand contains any ace, the
score of an ace-holding hand is reduced in steps of 10 down to at most 21,
a final score of 21 with `soft` becomes 22, a final score above 21 (only
reachable without aces) becomes 0, and `busted` means the score is 0. -/
def score_soft_busted (hand : List ℕ) : ℕ × Bool × Bool :=
  let aces := hand.countP (fun c => decide (c = 1))
  let raw := (hand.map cardValue).sum
  let score := if 0 < aces then dropTens raw else raw
  let soft : Bool := decide (0 < aces)
  let score2 := if soft = true ∧ score = 21 then 22
    else if 21 < score then 0 else score
  (score2, soft, decide (score2 = 0))

/-- Method `State.score`: the first component of `score_soft_busted`. -/
def scoreHand (hand : List ℕ) : ℕ := (score_soft_busted hand).1

/-- One agent's slice of `blackjack.State`: the agent's hand and stand
flag, which is all the planner's particles ever read or write.  The shoe
is abstracted by the card oracles supplied to the sampling operations (the
shoe only determines which card a draw produces). -/
structure PState : Type where
  hand : List ℕ
  stand : Bool
deriving DecidableEq

/-- Method `State.actions` for the agent: every `Action` while the agent
has not stood (or busted), the empty tuple afterwards. -/
def PState.actions (s : PState) : List Action :=
  if s.stand then [] else Action.all

/-- Method `State.sample` for the acting agent: a card is always drawn
from the shoe; `HIT` prepends the drawn card to the hand, `STAND` raises
the stand flag.  `State.__init__` then re-derives the stand flag as
`stand or busted`. -/
def PState.sample (s : PState) (a : Action) (card : ℕ) : PState :=
  let hand := if a = Action.HIT then card :: s.hand else s.hand
  let stand := if a = Action.STAND then true else s.stand
  { hand := hand, stand := stand || (score_soft_busted hand).2.2 }

/-- Method `State.score` for the agent's own hand. -/
def PState.score (s : PState) : ℕ := scoreHand s.hand

/-- Method `DealerAgent.policy` with threshold `n`: hit below `n` and on a
soft score equal to `n`, otherwise stand (`obs.score_soft_busted()` reads
the same hand as the underlying state). -/
def dealerPolicy (n : ℕ) (s : PState) : Action :=
  let r := score_soft_busted s.hand
  if r.1 < n then Action.HIT
  else if r.2.2 = true then Action.STAND
  else if r.2.1 = true ∧ r.1 = n then Action.HIT
  else Action.STAND

/-- Python class `pomcp.SearchTree`.  The field `particles` is a reference
(an index) into a particle store: Python lists are heap references, and
the constructor's default argument `particles=[]` is a single list
allocated once when the `def` is evaluated, so every node built without an
explicit `particles` argument shares the reference `defaultParticlesRef`.
The field `children` lists the members of the `children` set in insertion
order; Python does not promise this (or any) iteration order for a set,
which is accounted for wherever iteration order matters. -/
inductive SearchTree : Type where
  | mk (particles : ℕ) (visit : ℕ) (value : ℚ) (action : Option Action)
      (children : List SearchTree) : SearchTree

/-- Field accessor for `SearchTree.particles`. -/
def SearchTree.particles : SearchTree → ℕ
  | .mk p _ _ _ _ => p

/-- Field accessor for `SearchTree.visit`. -/
def SearchTree.visit : SearchTree → ℕ
  | .mk _ v _ _ _ => v

/-- Field accessor for `SearchTree.value`. -/
def SearchTree.value : SearchTree → ℚ
  | .mk _ _ q _ _ => q

/-- Field accessor for `SearchTree.action`. -/
def SearchTree.action : SearchTree → Option Action
  | .mk _ _ _ a _ => a

/-- Field accessor for `SearchTree.children`. -/
def SearchTree.children : SearchTree → List SearchTree
  | .mk _ _ _ _ cs => cs

/-- Reference held by the default argument `particles=[]` of
`SearchTree.__init__`, allocated once when the class body is evaluated. -/
def defaultParticlesRef : ℕ := 0

/-- Constructor call `SearchTree(action=a)`: a node built with the
constructor defaults — the shared default `particles` reference,
`visit=1`, `value=0`, and an empty child collection. -/
def newChild (a : Action) : SearchTree :=
  .mk defaultParticlesRef 1 0 (some a) []

/-- Method `SearchTree.expand`: add one fresh child per member of the
`Action` enumeration; legality of the actions is never consulted. -/
def SearchTree.expand : SearchTree → SearchTree
  | .mk p v q a cs => .mk p v q a (cs ++ Action.all.map newChild)

/-- Heap of particle lists; index `defaultParticlesRef` holds the single
default list shared by every node built without an explicit `particles`
argument. -/
abbrev ParticleStore := List (List PState)

/-- Store as of module initialisation: only the default list, still empty. -/
def initStore : ParticleStore := [[]]

/-- Statement `tree.particles.append(part)` of `POMCP.simulate`: append a
particle to the list that a node's `particles` reference points at. -/
def appendParticle (store : ParticleStore) (ref : ℕ) (p : PState) : ParticleStore :=
  store.set ref (store.getD ref [] ++ [p])

/-- Read the belief list that a node's `particles` reference points at. -/
def beliefOf (store : ParticleStore) (t : SearchTree) : List PState :=
  store.getD t.particles []

/-- Statistics backup applied to the selected child by `POMCP.simulate`:
`visit += 1` followed by `value += (reward - value) / visit`, the
increment being applied before the division. -/
def updateStats (st : ℕ × ℚ) (r : ℚ) : ℕ × ℚ :=
  let visit := st.1 + 1
  (visit, st.2 + (r - st.2) / (visit : ℚ))

/-- Python builtin `max(iterable, key=k)` on a non-empty collection,
presented as head and tail: fold keeping the current maximum and replacing
it only on a strictly larger key, so the first element attaining the
maximal key is returned. -/
def pyMax {α β : Type _} [LinearOrder β] (key : α → β) (x : α) (xs : List α) : α :=
  xs.foldl (fun acc y => if key acc < key y then y else acc) x

/-- Membership test `child.action in actions` used by the selection
filters; the root's `action` is `None` and never matches. -/
def legalChild (acts : List Action) (c : SearchTree) : Bool :=
  match c.action with
  | some a => acts.contains a
  | none => false

/-- Action choice of `POMCP.policy` after the simulation budget: restrict
the root's children to those whose incoming action is legal for the
observation and take `max(children, key=lambda child: child.value)`;
Python raises `ValueError` on an empty collection, modelled as `none`.
The input list order is the children collection's iteration order. -/
def bestChild (acts : List Action) (children : List SearchTree) : Option SearchTree :=
  match children.filter (legalChild acts) with
  | [] => none
  | c :: cs => some (pyMax (fun x => SearchTree.value x) c cs)

/-- Configuration stored verbatim by `POMCP.__init__` (source defaults:
`discount=0.8`, `depth=0`, `epsilon=1e-7`, `explore=7`, `n_particles=128`,
`reinvigoration=16`); float parameters are modelled as rationals. -/
structure Cfg : Type where
  discount : ℚ
  depth : ℕ
  epsilon : ℚ
  explore : ℚ
  n_particles : ℕ
  reinvigoration : ℕ
deriving DecidableEq

/-- Constructor `POMCP.__init__`: the six parameters are stored without
any validation and construction never fails.  The result is wrapped in
`Option` so that a failing construction would be expressible; the body
contains no assert, so the result is always `some`. -/
def POMCP.init (discount : ℚ) (depth : ℕ) (epsilon : ℚ) (explore : ℚ)
    (n_particles : ℕ) (reinvigoration : ℕ) : Option Cfg :=
  some ⟨discount, depth, epsilon, explore, n_particles, reinvigoration⟩

/-- Method `POMCP.rollout`, with two totalisation devices: `oracle k`
supplies the card produced by the `k`-th shoe draw of the trial, and
`fuel` bounds the recursion depth (the stabilisation theorem below shows
the result does not depend on the fuel once the horizon guard covers the
remaining budget).  Returns the discounted return together with the next
oracle cursor, or `none` if the fuel ran out first.  The rollout policy is
`DealerAgent()` (threshold 17) applied to the particle's observation,
whose hand is the state's hand; `Particle.from_s` packages the sampled
next state for the recursive call. -/
def rollout (cfg : Cfg) (oracle : ℕ → ℕ) (fuel : ℕ) (s : PState)
    (depth k : ℕ) : Option (ℚ × ℕ) :=
  if cfg.discount ^ depth < cfg.epsilon then some (0, k)
  else if s.actions.length = 0 then some (0, k)
  else
    match fuel with
    | 0 => none
    | f + 1 =>
      let a := dealerPolicy 17 s
      let t := s.sample a (oracle k)
      match rollout cfg oracle f t (depth + 1) (k + 1) with
      | none => none
      | some (r, k2) => some ((t.score : ℚ) + cfg.discount * r, k2)

/-- Method `SearchTree.ucb`: `math.log(self.visit, len(self.children))` is
the logarithm of the node's visit count in base `len(self.children)`,
i.e. `ln(visit) / ln(len(children))`; it is divided by the child's visit
count and the square root is returned. -/
noncomputable def SearchTree.ucb (t c : SearchTree) : ℝ :=
  let log := Real.log t.visit / Real.log t.children.length
  let div := log / (c.visit : ℝ)
  Real.sqrt div

/-- Selection key used by `POMCP.simulate`:
`child.value + self.explore * tree.ucb(child)`. -/
noncomputable def simKey (cfg : Cfg) (t c : SearchTree) : ℝ :=
  (c.value : ℝ) + (cfg.explore : ℝ) * t.ucb c

/-- Method `POMCP.simulate`.  Mutation is made explicit: the call returns
the discounted return, the updated node (expansion, visit increment, and
the statistics update of the selected child, which is replaced at its
position in the child list), the advanced oracle cursor, and the particle
store after the belief append `tree.particles.append(new_part)`.  The
children are enumerated with their indices so that the selected child can
be written back in place.  As in `rollout`, `fuel` is a totalisation
device; `none` signals fuel exhaustion, or the `ValueError` Python would
raise if every child were filtered out (unreachable after `expand`). -/
noncomputable def simulate (cfg : Cfg) (oracle : ℕ → ℕ) (fuel : ℕ)
    (s : PState) (tree : SearchTree) (depth k : ℕ) (store : ParticleStore) :
    Option (ℚ × SearchTree × ℕ × ParticleStore) :=
  if cfg.discount ^ depth < cfg.epsilon then some (0, tree, k, store)
  else if tree.children.length = 0 then
    match rollout cfg oracle fuel s depth k with
    | none => none
    | some (r, k2) => some (r, tree.expand, k2, store)
  else if s.actions.length = 0 then some (0, tree, k, store)
  else
    match tree.children.enum.filter (fun ic => legalChild s.actions ic.2) with
    | [] => none
    | ic :: ics =>
      match fuel with
      | 0 => none
      | f + 1 =>
        let best := pyMax (fun p : ℕ × SearchTree => simKey cfg tree p.2) ic ics
        match best.2.action with
        | none => none
        | some a =>
          let ns := s.sample a (oracle k)
          match simulate cfg oracle f ns best.2 (depth + 1) (k + 1) store with
          | none => none
          | some (r, child2, k2, store2) =>
            let reward := (ns.score : ℚ) + cfg.discount * r
            let store3 := appendParticle store2 tree.particles ns
            let stats := updateStats (child2.visit, child2.value) reward
            let child3 : SearchTree :=
              .mk child2.particles stats.1 stats.2 child2.action child2.children
            let tree2 : SearchTree :=
              .mk tree.particles (tree.visit + 1) tree.value tree.action
                (tree.children.set best.1 child3)
            some (reward, tree2, k2, store3)

/-- Method `POMCP.policy`.  `root?` models `ctx.get('pomcp_root')`;
`draw i` models `random.sample(tree.particles, 1)[0]` for the `i`-th
simulation trial and `seed j` models the `j`-th `Particle.from_obs(obs)`
(both are draws of environment randomness).  The belief bookkeeping of the
root branch rebinds `tree.particles` to a freshly built list, modelled by
allocating a fresh store reference; on a reused root the stored particles
are filtered to those matching the observation and `reinvigoration` fresh
particles are added.  Returns the chosen action together with the new root
(`ctx['pomcp_root'] = child`), or `none` where Python raises (`max` over
an empty child collection). -/
noncomputable def policy (cfg : Cfg) (oracle : ℕ → ℕ) (draw seed : ℕ → PState)
    (fuel : ℕ) (obs : PState) (root? : Option SearchTree)
    (store : ParticleStore) : Option (Action × SearchTree) :=
  let info : SearchTree × ParticleStore :=
    match root? with
    | none =>
      (SearchTree.mk store.length 1 0 none [],
        store ++ [(List.range cfg.n_particles).map seed])
    | some t =>
      let kept := (beliefOf store t).filter (fun p => decide (p = obs)) ++
        (List.range cfg.reinvigoration).map seed
      (SearchTree.mk store.length t.visit t.value t.action t.children,
        store ++ [kept])
  let run := (List.range cfg.n_particles).foldl
    (fun (acc : SearchTree × ℕ × ParticleStore) i =>
      match simulate cfg oracle fuel (draw i) acc.1 0 acc.2.1 acc.2.2 with
      | none => acc
      | some (_, t2, k2, st2) => (t2, k2, st2)) (info.1, 0, info.2)
  match bestChild obs.actions run.1.children with
  | none => none
  | some best =>
    match best.action with
    | none => none
    | some a => some (a, best)

/-- Modelled from the spec: the child-selection score the specification
prescribes, `valueEstimate(child) + explorationConstant *
sqrt(ln(visitCount(node)) / visitCount(child))` with `ln` the natural
logarithm, stated for refinement comparison against the source's
`simKey`. -/
noncomputable def specSelectKey (cfg : Cfg) (t c : SearchTree) : ℝ :=
  (c.value : ℝ) + (cfg.explore : ℝ) *
    Real.sqrt (Real.log t.visit / (c.visit : ℝ))

/-- Python's `max` returns an element of its input collection. -/
theorem pyMax_mem {α β : Type _} [LinearOrder β] (key : α → β) (x : α)
    (xs : List α) : pyMax key x xs ∈ x :: xs := by
  induction xs generalizing x with
  | nil => simp [pyMax]
  | cons y ys ih =>
    have h := ih (if key x < key y then y else x)
    simp only [pyMax, List.foldl_cons] at h ⊢
    rcases List.mem_cons.1 h with h1 | h1
    · rw [h1]
      by_cases hxy : key x < key y <;> simp [hxy]
    · exact List.mem_cons_of_mem _ (List.mem_cons_of_mem _ h1)

/-- Python's `max` attains the maximal key of its input collection. -/
theorem pyMax_le {α β : Type _} [LinearOrder β] (key : α → β) (x : α)
    (xs : List α) : ∀ y ∈ x :: xs, key y ≤ key (pyMax key x xs) := by
  induction xs generalizing x with
  | nil =>
    intro y hy
    rcases List.mem_cons.1 hy with h | h
    · rw [h]; simp [pyMax]
    · simp at h
  | cons z zs ih =>
    intro y hy
    have hx : key x ≤ key (if key x < key z then z else x) := by
      by_cases h : key x < key z <;> simp [h, le_of_lt]
    have hz : key z ≤ key (if key x < key z then z else x) := by
      by_cases h : key x < key z <;> simp [h]
      exact le_of_not_lt h
    have hrec := ih (if key x < key z then z else x)
    simp only [pyMax, List.foldl_cons] at hrec ⊢
    rcases List.mem_cons.1 hy with h | h
    · rw [h]
      exact le_trans hx (hrec _ (List.mem_cons_self _ _))
    · rcases List.mem_cons.1 h with h2 | h2
      · rw [h2]
        exact le_trans hz (hrec _ (List.mem_cons_self _ _))
      · exact hrec y (List.mem_cons_of_mem _ h2)

/-- Closed form of a backup sequence: folding `updateStats` over returns
`rs` starting from statistics `(c, v)` with `c ≥ 1` yields visit count
`c + |rs|` and value `(v * c + Σ rs) / (c + |rs|)`. -/
theorem foldl_updateStats (rs : List ℚ) : ∀ (c : ℕ) (v : ℚ), 0 < c →
    List.foldl updateStats (c, v) rs =
      (c + rs.length, (v * c + rs.sum) / ((c : ℚ) + rs.length)) := by
  induction rs with
  | nil =>
    intro c v hc
    have hc0 : (c : ℚ) ≠ 0 := Nat.cast_ne_zero.2 hc.ne'
    simp only [List.foldl_nil, List.length_nil, List.sum_nil, Nat.cast_zero,
      add_zero, Nat.add_zero, Prod.mk.injEq]
    exact ⟨by simp, by rw [mul_div_assoc, div_self hc0, mul_one]⟩
  | cons r rs ih =>
    intro c v hc
    have hc0 : (c : ℚ) ≠ 0 := Nat.cast_ne_zero.2 hc.ne'
    have hc1 : (c : ℚ) + 1 ≠ 0 := by positivity
    have hstep : updateStats (c, v) r = (c + 1, (v * c + r) / ((c : ℚ) + 1)) := by
      simp only [updateStats, Prod.mk.injEq, true_and]
      push_cast
      field_simp
      ring
    rw [List.foldl_cons, hstep, ih (c + 1) _ (by omega)]
    simp only [Prod.mk.injEq, List.length_cons, List.sum_cons]
    constructor
    · omega
    · push_cast
      rw [div_mul_cancel₀ _ hc1]
      ring

/-- C2 is false as stated: a single backup of return 1 applied to a fresh
child (statistics `visit = 1`, `value = 0` from the constructor defaults)
leaves `valueEstimate = 1/2`, not the mean `1` of the backed-up returns. -/
theorem running_mean_claim_false :
    (List.foldl updateStats (1, 0) [(1 : ℚ)]).2 ≠
      ([(1 : ℚ)]).sum / (([(1 : ℚ)]).length : ℚ) := by
  norm_num [updateStats, List.foldl_cons, List.foldl_nil]

/-- C2 (amended): after `n` backups of a freshly created child
(`visit = 1`, `value = 0`) with returns `r_1..r_n`, the child's
`valueEstimate` is `(r_1 + ... + r_n) / (n + 1)` — the constructor's
initial visit count of 1 makes the estimate a mean over `n + 1` values,
counting a phantom zero return — and the resulting statistics are the
same for every order in which the same returns are applied. -/
theorem updateStats_mean (rs rs2 : List ℚ) (h : rs.Perm rs2) :
    (List.foldl updateStats (1, 0) rs).2 = rs.sum / ((rs.length : ℚ) + 1) ∧
    List.foldl updateStats (1, 0) rs = List.foldl updateStats (1, 0) rs2 := by
  have h1 := foldl_updateStats rs 1 0 (by norm_num)
  have h2 := foldl_updateStats rs2 1 0 (by norm_num)
  refine ⟨?_, ?_⟩
  · rw [h1]
    push_cast
    ring
  · rw [h1, h2, h.length_eq, h.sum_eq]

/-- Witness for the amended C2 at a concrete pair of update orders. -/
theorem updateStats_mean_witness :
    (List.foldl updateStats (1, 0) [(1 : ℚ), 2]).2 =
      ([(1 : ℚ), 2]).sum / ((([(1 : ℚ), 2]).length : ℚ) + 1) ∧
    List.foldl updateStats (1, 0) [(1 : ℚ), 2] =
      List.foldl updateStats (1, 0) [(2 : ℚ), 1] :=
  updateStats_mean [1, 2] [2, 1] (List.Perm.swap 2 1 [])

/-- C3 is false as stated: expanding a node whose representative particle
has no legal actions (the particle already stands) still creates one child
per member of the whole `Action` enumeration — two children — and every
created child has `visit = 1`, not 0. -/
theorem expand_claim_false :
    (PState.mk [] true).actions = [] ∧
    ((SearchTree.mk 1 1 0 none []).expand).children =
      [newChild Action.STAND, newChild Action.HIT] ∧
    (newChild Action.STAND).visit = 1 ∧ (newChild Action.HIT).visit = 1 := by
  exact ⟨rfl, rfl, rfl, rfl⟩

/-- C3 (amended): `expand` appends one child per member of the `Action`
enumeration (`STAND` and `HIT`), regardless of which actions are legal at
the node; every created child has `visit = 1`, `value = 0`, no children,
and its belief is the shared default `particles` reference. -/
theorem expand_adds_enum_children (t : SearchTree) :
    t.expand.children = t.children ++ [newChild Action.STAND, newChild Action.HIT] ∧
    ∀ a : Action, (newChild a).visit = 1 ∧ (newChild a).value = 0 ∧
      (newChild a).children = [] ∧ (newChild a).particles = defaultParticlesRef := by
  constructor
  · cases t
    rfl
  · intro a
    exact ⟨rfl, rfl, rfl, rfl⟩

/-- C4: evaluation at the failing input.  The two children created by
`expand` are distinct nodes, both built without an explicit `particles`
argument; in the initial store the `HIT` child's belief is empty, yet
appending one particle through the `STAND` child's belief reference makes
it appear in the `HIT` child's belief too, because every default-built
node aliases the single list allocated once for the default argument
`particles=[]`. -/
theorem shared_default_belief_alias :
    (newChild Action.STAND).action ≠ (newChild Action.HIT).action ∧
    beliefOf initStore (newChild Action.HIT) = [] ∧
    beliefOf (appendParticle initStore (newChild Action.STAND).particles
        (PState.mk [] false)) (newChild Action.HIT) = [PState.mk [] false] := by
  exact ⟨by decide, rfl, rfl⟩

/-- Configuration with a simulation budget (`n_particles`) of zero; the
other fields keep the source defaults. -/
def cfgB0 : Cfg := ⟨4 / 5, 0, 1 / 10000000, 7, 0, 16⟩

/-- C5 is false as stated: with a simulation budget of zero
(`n_particles = 0`) and a non-terminal observation, the decision procedure
runs no simulations, never expands the root, and then takes `max` over an
empty child collection — a `ValueError` in Python, `none` here — instead
of returning a defined action. -/
theorem budget_zero_claim_false :
    (PState.mk [] false).actions ≠ [] ∧
    policy cfgB0 (fun _ => 2) (fun _ => PState.mk [] false)
      (fun _ => PState.mk [] false) 0 (PState.mk [] false) none initStore =
      none := by
  exact ⟨by decide, rfl⟩

/-- C5 (amended): whenever the simulation budget `n_particles` is zero and
the context holds no tree, the decision procedure fails (returns no
action): the root is never expanded, so the final selection maximises over
an empty child collection, which raises in Python. -/
theorem policy_budget_zero_fails (cfg : Cfg) (oracle : ℕ → ℕ)
    (draw seed : ℕ → PState) (fuel : ℕ) (obs : PState) (store : ParticleStore)
    (h : cfg.n_particles = 0) :
    policy cfg oracle draw seed fuel obs none store = none := by
  simp [policy, h, bestChild, SearchTree.children]

/-- Witness for the amended C5 at a concrete configuration and state. -/
theorem policy_budget_zero_fails_witness :
    policy cfgB0 (fun _ => 3) (fun _ => PState.mk [2] false)
      (fun _ => PState.mk [2] false) 5 (PState.mk [2] false) none initStore =
      none :=
  policy_budget_zero_fails cfgB0 (fun _ => 3) (fun _ => PState.mk [2] false)
    (fun _ => PState.mk [2] false) 5 (PState.mk [2] false) initStore rfl

/-- C6 is false as stated: constructing the agent with a non-positive
discount and a particle count of zero succeeds and stores the invalid
values verbatim; nothing fails at construction time. -/
theorem init_accepts_invalid_claim_false :
    POMCP.init (-1) 0 (1 / 10000000) 7 0 16 =
      some ⟨-1, 0, 1 / 10000000, 7, 0, 16⟩ := rfl

/-- C6 (amended): `POMCP.__init__` performs no validation at all — every
parameter tuple, including non-positive discounts and a zero particle
count, is accepted and stored verbatim, so misconfiguration can only
surface later (at decision time), never at construction. -/
theorem init_always_succeeds (d : ℚ) (dep : ℕ) (e x : ℚ) (n rv : ℕ) :
    POMCP.init d dep e x n rv = some ⟨d, dep, e, x, n, rv⟩ := rfl

/-- C10: evaluation at the failing inputs.  The hand A,10,10,5 has minimum
total 26 — a bust — yet scores 16, because the ace-reduction loop of
`score_soft_busted` never decrements its ace counter and keeps subtracting
10 until the score drops below 22; and the hand A,5,5,10 is a hard 21 (its
ace must count as 1) yet also scores 22, because `soft` is computed as
"contains an ace" rather than "an ace is counted as 11".  Only the no-ace
bust path scores 0 as claimed. -/
theorem score_soft_busted_code_eval :
    scoreHand [1, 10, 10, 5] = 16 ∧
    scoreHand [1, 5, 5, 10] = 22 ∧
    scoreHand [10, 10, 5] = 0 := by
  have h16 : dropTens 16 = 16 := by rw [dropTens.eq_def]; norm_num
  have h36 : dropTens 36 = 16 := by
    rw [dropTens.eq_def]; norm_num
    rw [dropTens.eq_def]; norm_num
    exact h16
  have h31 : dropTens 31 = 21 := by
    rw [dropTens.eq_def]; norm_num
    rw [dropTens.eq_def]; norm_num
  refine ⟨?_, ?_, ?_⟩ <;>
    norm_num [scoreHand, score_soft_busted, cardValue, h36, h31,
      List.countP_cons, List.countP_nil]

/-- C8: once the effective horizon is reached
(`discount ** depth < epsilon`), both `simulate` and `rollout` return
exactly 0 — with the node, cursor, and store untouched — regardless of the
particle, the node, the oracle, and the remaining fuel. -/
theorem horizon_returns_zero (cfg : Cfg) (oracle : ℕ → ℕ) (fuel : ℕ)
    (s : PState) (tree : SearchTree) (depth k : ℕ) (store : ParticleStore)
    (h : cfg.discount ^ depth < cfg.epsilon) :
    simulate cfg oracle fuel s tree depth k store = some (0, tree, k, store) ∧
    rollout cfg oracle fuel s depth k = some (0, k) := by
  refine ⟨?_, ?_⟩
  · unfold simulate
    rw [if_pos h]
  · unfold rollout
    rw [if_pos h]

/-- Configuration used by the C8 witness: `discount = 1/2` and
`epsilon = 1/2`, so depth 5 lies past the effective horizon. -/
def cfgW8 : Cfg := ⟨1 / 2, 0, 1 / 2, 7, 128, 16⟩

/-- Witness for C8 at a concrete configuration, particle, node, and
depth beyond the horizon. -/
theorem horizon_returns_zero_witness :
    simulate cfgW8 (fun _ => 2) 0 (PState.mk [] false)
        (SearchTree.mk 0 1 0 none []) 5 0 initStore =
      some (0, SearchTree.mk 0 1 0 none [], 0, initStore) ∧
    rollout cfgW8 (fun _ => 2) 0 (PState.mk [] false) 5 0 = some (0, 0) :=
  horizon_returns_zero cfgW8 (fun _ => 2) 0 (PState.mk [] false)
    (SearchTree.mk 0 1 0 none []) 5 0 initStore (by norm_num [cfgW8])

/-- The horizon guard eventually fires: with `0 < discount < 1` and
`0 < epsilon` there is a depth `D` past which
`discount ** depth < epsilon` always holds. -/
theorem exists_horizon (cfg : Cfg) (h0 : 0 < cfg.discount)
    (h1 : cfg.discount < 1) (he : 0 < cfg.epsilon) :
    ∃ D, ∀ d, D ≤ d → cfg.discount ^ d < cfg.epsilon := by
  obtain ⟨n, hn⟩ := exists_pow_lt_of_lt_one he h1
  exact ⟨n, fun d hd =>
    lt_of_le_of_lt (pow_le_pow_of_le_one h0.le h1.le hd) hn⟩

/-- Fuel-independence of `rollout` past the horizon: once the remaining
fuel budget reaches a depth where the guard fires, granting more fuel
cannot change the result — the recursion has bottomed out. -/
theorem rollout_stable (cfg : Cfg) (oracle : ℕ → ℕ) (D : ℕ)
    (hD : ∀ d, D ≤ d → cfg.discount ^ d < cfg.epsilon) :
    ∀ f g s depth k, D ≤ depth + f → f ≤ g →
      rollout cfg oracle f s depth k = rollout cfg oracle g s depth k := by
  intro f
  induction f with
  | zero =>
    intro g s depth k hdf _
    have hg := hD depth (by omega)
    unfold rollout
    rw [if_pos hg, if_pos hg]
  | succ f ih =>
    intro g s depth k hdf hfg
    obtain ⟨g, rfl⟩ : ∃ g2, g = g2 + 1 := ⟨g - 1, by omega⟩
    by_cases hguard : cfg.discount ^ depth < cfg.epsilon
    · unfold rollout
      rw [if_pos hguard, if_pos hguard]
    · by_cases hact : s.actions.length = 0
      · unfold rollout
        rw [if_neg hguard, if_neg hguard, if_pos hact, if_pos hact]
      · have hrec := ih g (s.sample (dealerPolicy 17 s) (oracle k))
          (depth + 1) (k + 1) (by omega) (by omega)
        unfold rollout
        rw [if_neg hguard, if_neg hguard, if_neg hact, if_neg hact]
        simp only []
        rw [hrec]

/-- Fuel-independence of `simulate` past the horizon, by the same
induction; the expansion branch hands the current fuel to `rollout` and
the descent branch recurses one level deeper with one unit less fuel. -/
theorem simulate_stable (cfg : Cfg) (oracle : ℕ → ℕ) (D : ℕ)
    (hD : ∀ d, D ≤ d → cfg.discount ^ d < cfg.epsilon) :
    ∀ f g s tree depth k store, D ≤ depth + f → f ≤ g →
      simulate cfg oracle f s tree depth k store =
        simulate cfg oracle g s tree depth k store := by
  intro f
  induction f with
  | zero =>
    intro g s tree depth k store hdf _
    have hg := hD depth (by omega)
    unfold simulate
    rw [if_pos hg, if_pos hg]
  | succ f ih =>
    intro g s tree depth k store hdf hfg
    obtain ⟨g, rfl⟩ : ∃ g2, g = g2 + 1 := ⟨g - 1, by omega⟩
    by_cases hguard : cfg.discount ^ depth < cfg.epsilon
    · unfold simulate
      rw [if_pos hguard, if_pos hguard]
    · by_cases hchild : tree.children.length = 0
      · have hro := rollout_stable cfg oracle D hD (f + 1) (g + 1) s depth k
          (by omega) (by omega)
        unfold simulate
        rw [if_neg hguard, if_neg hguard, if_pos hchild, if_pos hchild, hro]
      · by_cases hact : s.actions.length = 0
        · unfold simulate
          rw [if_neg hguard, if_neg hguard, if_neg hchild, if_neg hchild,
            if_pos hact, if_pos hact]
        · unfold simulate
          rw [if_neg hguard, if_neg hguard, if_neg hchild, if_neg hchild,
            if_neg hact, if_neg hact]
          cases hfil : tree.children.enum.filter
              (fun ic => legalChild s.actions ic.2) with
          | nil => simp only []
          | cons ic ics =>
            simp only []
            cases hbest : (pyMax (fun p : ℕ × SearchTree =>
                simKey cfg tree p.2) ic ics).2.action with
            | none => simp only []
            | some a =>
              simp only []
              rw [ih g (s.sample a (oracle k))
                (pyMax (fun p : ℕ × SearchTree => simKey cfg tree p.2) ic ics).2
                (depth + 1) (k + 1) store (by omega) (by omega)]

/-- C9: with `0 < discount < 1` and `0 < epsilon`, the recursions of
`simulate` and `rollout` terminate — there is a horizon `D`, depending
only on the configuration, such that granting any recursion budget of at
least `D - depth` produces the same result as any larger budget: every
call chain bottoms out at the `discount ** depth < epsilon` guard by
depth `D`, which is the sole termination guarantee. -/
theorem simulate_rollout_terminate (cfg : Cfg) (oracle : ℕ → ℕ)
    (h0 : 0 < cfg.discount) (h1 : cfg.discount < 1) (he : 0 < cfg.epsilon) :
    ∃ D, ∀ f g s tree depth k store, D ≤ depth + f → f ≤ g →
      simulate cfg oracle f s tree depth k store =
        simulate cfg oracle g s tree depth k store ∧
      rollout cfg oracle f s depth k = rollout cfg oracle g s depth k := by
  obtain ⟨D, hD⟩ := exists_horizon cfg h0 h1 he
  refine ⟨D, fun f g s tree depth k store hdf hfg => ?_⟩
  exact ⟨simulate_stable cfg oracle D hD f g s tree depth k store hdf hfg,
    rollout_stable cfg oracle D hD f g s depth k hdf hfg⟩

/-- Witness for C9 at the source's default configuration
(`discount = 4/5`, `epsilon = 1e-7`). -/
theorem simulate_rollout_terminate_witness :
    ∃ D, ∀ f g s tree depth k store, D ≤ depth + f → f ≤ g →
      simulate ⟨4 / 5, 0, 1 / 10000000, 7, 128, 16⟩ (fun _ => 2) f s tree
          depth k store =
        simulate ⟨4 / 5, 0, 1 / 10000000, 7, 128, 16⟩ (fun _ => 2) g s tree
          depth k store ∧
      rollout ⟨4 / 5, 0, 1 / 10000000, 7, 128, 16⟩ (fun _ => 2) f s depth k =
        rollout ⟨4 / 5, 0, 1 / 10000000, 7, 128, 16⟩ (fun _ => 2) g s depth
          k :=
  simulate_rollout_terminate ⟨4 / 5, 0, 1 / 10000000, 7, 128, 16⟩
    (fun _ => 2) (by norm_num) (by norm_num) (by norm_num)

/-- Child used by the C7 analysis: incoming action `HIT`, value 1/2. -/
def tieHIT : SearchTree := .mk 0 3 (1 / 2) (some Action.HIT) []

/-- Child used by the C7 analysis: incoming action `STAND`, value 1/2. -/
def tieSTAND : SearchTree := .mk 0 3 (1 / 2) (some Action.STAND) []

/-- Evaluation of the final selection on the tied pair: the first child in
iteration order wins the tie. -/
theorem bestChild_tie_eval :
    bestChild Action.all [tieHIT, tieSTAND] = some tieHIT := by
  simp only [bestChild, legalChild, Action.all, tieHIT, tieSTAND,
    SearchTree.action, SearchTree.value, List.filter, List.contains,
    pyMax, List.foldl_cons, List.foldl_nil]
  norm_num

/-- C7 is false as stated: the root's children live in a Python `set`,
whose iteration order is unspecified, and `max` keeps the first maximal
element of that order.  Under the realizable iteration order that yields
the `HIT` child before the `STAND` child, a tie in `value` between two
legal children is resolved to `HIT`, not to the first-enumerated action
`STAND` (the `Action` enumeration lists `STAND` before `HIT`). -/
theorem final_tie_break_claim_false :
    tieHIT.value = tieSTAND.value ∧
    Action.all = [Action.STAND, Action.HIT] ∧
    bestChild (PState.mk [] false).actions [tieHIT, tieSTAND] = some tieHIT ∧
    tieHIT.action = some Action.HIT := by
  refine ⟨rfl, rfl, ?_, rfl⟩
  show bestChild Action.all [tieHIT, tieSTAND] = some tieHIT
  exact bestChild_tie_eval

/-- C7 (amended): after the budget is exhausted the decision procedure
returns a child that is legal for the observation and has maximal `value`
among the legal children; among ties it returns the first maximal child in
the children collection's iteration order, which Python does not fix to
the enumeration order of `Action`. -/
theorem bestChild_max_value_legal (acts : List Action)
    (children : List SearchTree) (c : SearchTree)
    (h : bestChild acts children = some c) :
    c ∈ children ∧ legalChild acts c = true ∧
    ∀ c2 ∈ children, legalChild acts c2 = true → c2.value ≤ c.value := by
  unfold bestChild at h
  cases hfil : children.filter (legalChild acts) with
  | nil =>
    rw [hfil] at h
    cases h
  | cons d ds =>
    rw [hfil] at h
    have hc : c = pyMax (fun x => SearchTree.value x) d ds := by
      injection h with h2
      exact h2.symm
    have hmem : c ∈ d :: ds := by
      rw [hc]
      exact pyMax_mem _ d ds
    rw [← hfil] at hmem
    have hmem2 := List.mem_filter.1 hmem
    refine ⟨hmem2.1, hmem2.2, ?_⟩
    intro c2 hc2 hleg
    have hin : c2 ∈ d :: ds := by
      rw [← hfil]
      exact List.mem_filter.2 ⟨hc2, hleg⟩
    have hle := pyMax_le (fun x => SearchTree.value x) d ds c2 hin
    rw [← hc] at hle
    exact hle

/-- Witness for the amended C7 at a concrete root. -/
theorem bestChild_max_value_legal_witness :
    tieHIT ∈ [tieHIT, tieSTAND] ∧ legalChild Action.all tieHIT = true ∧
    ∀ c2 ∈ [tieHIT, tieSTAND], legalChild Action.all c2 = true →
      c2.value ≤ tieHIT.value :=
  bestChild_max_value_legal Action.all [tieHIT, tieSTAND] tieHIT
    bestChild_tie_eval

/-- Configuration for the C1 analysis: `explore = 1`, the other fields the
source defaults. -/
def cfgC1 : Cfg := ⟨4 / 5, 0, 1 / 10000000, 1, 128, 16⟩

/-- First child in iteration order for the C1 analysis: one visit,
value 0. -/
def chA : SearchTree := .mk 0 1 0 (some Action.STAND) []

/-- Second child in iteration order for the C1 analysis: four visits,
value 9/20. -/
def chB : SearchTree := .mk 0 4 (9 / 20) (some Action.HIT) []

/-- Node for the C1 analysis: two visits, children `chA` and `chB`. -/
def nodeC1 : SearchTree := .mk 0 2 0 none [chA, chB]

/-- C1 is false as stated: on a concrete node (two visits, two children
with visit counts 1 and 4 — both at least 1 — exploration constant 1) the
child selected by the source, which maximises the key built from
`math.log(self.visit, len(self.children))` — the logarithm in base
`len(children)` — is the first child, while the child maximising the
specified natural-logarithm formula is strictly the second: selection does
not return the maximiser of the specified formula. -/
theorem ucb_natural_log_claim_false :
    (1 ≤ chA.visit ∧ 1 ≤ chB.visit) ∧
    pyMax (fun p : ℕ × SearchTree => simKey cfgC1 nodeC1 p.2) (0, chA)
      [(1, chB)] = (0, chA) ∧
    specSelectKey cfgC1 nodeC1 chA < specSelectKey cfgC1 nodeC1 chB := by
  have hlog2 : Real.log 2 ≠ 0 := ne_of_gt (Real.log_pos (by norm_num))
  have hA : simKey cfgC1 nodeC1 chA = 1 := by
    simp only [simKey, SearchTree.ucb, cfgC1, nodeC1, chA, chB,
      SearchTree.value, SearchTree.visit, SearchTree.children,
      List.length_cons, List.length_nil]
    norm_num [div_self hlog2]
  have hB : simKey cfgC1 nodeC1 chB = 19 / 20 := by
    have hq : Real.sqrt (1 / 4 : ℝ) = 1 / 2 := by
      rw [show (1 / 4 : ℝ) = (1 / 2) ^ 2 by norm_num,
        Real.sqrt_sq (by norm_num : (0 : ℝ) ≤ 1 / 2)]
    simp only [simKey, SearchTree.ucb, cfgC1, nodeC1, chA, chB,
      SearchTree.value, SearchTree.visit, SearchTree.children,
      List.length_cons, List.length_nil]
    norm_num [div_self hlog2, hq]
  refine ⟨⟨le_refl 1, by norm_num [chB, SearchTree.visit]⟩, ?_, ?_⟩
  · simp only [pyMax, List.foldl_cons, List.foldl_nil]
    rw [if_neg]
    show ¬ simKey cfgC1 nodeC1 chA < simKey cfgC1 nodeC1 chB
    rw [hA, hB]
    norm_num
  · have h4 : Real.sqrt (Real.log 2 / 4) = Real.sqrt (Real.log 2) / 2 := by
      rw [Real.sqrt_div (Real.log_nonneg (by norm_num)) 4,
        show (4 : ℝ) = 2 ^ 2 by norm_num,
        Real.sqrt_sq (by norm_num : (0 : ℝ) ≤ 2)]
    have hs : Real.sqrt (Real.log 2) < 9 / 10 := by
      refine (Real.sqrt_lt' (by norm_num)).2 ?_
      calc Real.log 2 < 0.6931471808 := Real.log_two_lt_d9
        _ < (9 / 10) ^ 2 := by norm_num
    simp only [specSelectKey, cfgC1, nodeC1, chA, chB, SearchTree.value,
      SearchTree.visit]
    push_cast
    rw [div_one, h4]
    linarith [hs]

/-- C1 (amended): during simulation, among the legality-filtered children
the selected child maximises
`value + explore * sqrt((ln(visit(node)) / ln(len(children(node)))) / visit(child))`,
i.e. the UCB key in which the logarithm of the node's visit count is taken
in base `len(children)` (Python's `math.log(self.visit,
len(self.children))`), not the natural logarithm. -/
theorem simulate_selection_maximises_ucb (cfg : Cfg) (t : SearchTree)
    (ic : ℕ × SearchTree) (ics : List (ℕ × SearchTree)) :
    ∀ jc ∈ ic :: ics, simKey cfg t jc.2 ≤
      simKey cfg t
        (pyMax (fun p : ℕ × SearchTree => simKey cfg t p.2) ic ics).2 :=
  fun jc hjc =>
    pyMax_le (fun p : ℕ × SearchTree => simKey cfg t p.2) ic ics jc hjc

/-- Witness for the amended C1 at the concrete node. -/
theorem simulate_selection_maximises_ucb_witness :
    simKey cfgC1 nodeC1 ((1 : ℕ), chB).2 ≤
      simKey cfgC1 nodeC1 (pyMax (fun p : ℕ × SearchTree =>
        simKey cfgC1 nodeC1 p.2) (0, chA) [(1, chB)]).2 :=
  simulate_selection_maximises_ucb cfgC1 nodeC1 (0, chA) [(1, chB)] (1, chB)
    (by simp)

end PomcpBlackjack
